import Mathlib

/-!
Shallow embedding of `src/samgraph/common/cpu/cpu_parallel_hashtable.cc`
(the parallel id-compaction table of namespace `samgraph::common::cpu`).

Modelling choices:
* The two backing arrays `_o2n_table` and `_n2o_table` are plain Lean lists
  whose length equals the number of allocated entries; machine memory returned
  by the allocator is an arbitrary list supplied by the caller of `construct`.
* The OpenMP `parallel for` regions are sequentialized: each call is a fold
  over the input in index order.  The per-id outcome is race-free in the
  source (CAS per slot, fetch-and-add on the counter), and every claim is
  about the state after the parallel region has fully joined.
* The fatal `CHECK_LT` / `CHECK_LE` assertion macros abort the process; an
  aborted call is modelled as `Option.none`, a completed call as `some`.
* Machine integers (`IdType` = 32-bit unsigned id, `size_t` sizes) are
  modelled as `Nat`; no arithmetic in the source can overflow them under the
  checked preconditions.
-/

namespace Samgraph

namespace Constant

/-- Modelled from the spec: `Constant::kEmptyKey` is declared in `common.h`,
which is not part of the source tree.  It is the sentinel "empty" tag value
of an origin slot (spec §3: a tag "is either a sentinel empty value or the
global id that claimed this slot").  The id type is a 32-bit unsigned
integer, and the sentinel is its maximal value, so it lies outside the id
universe `[0, capacity)` whenever `capacity ≤ kEmptyKey`. -/
def kEmptyKey : Nat := 2 ^ 32 - 1

end Constant

/-- Origin-to-local bucket (`BukcetO2N` in the source, spelling kept).
`id` is the tag: the claiming global id, or the empty sentinel.  `loc` is
the assigned local index; it is called `local` in the source, renamed here
because `local` is a Lean keyword. -/
structure BukcetO2N where
  id : Nat
  loc : Nat
deriving Repr, DecidableEq

/-- Local-to-origin bucket (`BucketN2O` in the source): the global id that
produced this local index. -/
structure BucketN2O where
  global : Nat
deriving Repr, DecidableEq

/-- The state of a `ParallelHashTable`: the two backing arrays and the two
scalar members `_num_items` and `_capacity`. -/
structure ParallelHashTable where
  o2n_table : List BukcetO2N
  n2o_table : List BucketN2O
  num_items : Nat
  capacity : Nat
deriving Repr, DecidableEq

namespace ParallelHashTable

/-- The constructor `ParallelHashTable::ParallelHashTable(size_t sz)`:
allocates the two arrays (their initial contents are whatever the allocator
returned, passed in here as `o2nMem` and `n2oMem`, each of `sz` entries) and
sets `_num_items = 0`, `_capacity = sz`.  No origin slot is written. -/
def construct (sz : Nat) (o2nMem : List BukcetO2N) (n2oMem : List BucketN2O) :
    ParallelHashTable :=
  { o2n_table := o2nMem, n2o_table := n2oMem, num_items := 0, capacity := sz }

/-- Read `_o2n_table[i]`. -/
def getO (ht : ParallelHashTable) (i : Nat) : BukcetO2N :=
  ht.o2n_table.getD i ⟨Constant.kEmptyKey, 0⟩

/-- Read `_n2o_table[j]`. -/
def getN (ht : ParallelHashTable) (j : Nat) : BucketN2O :=
  ht.n2o_table.getD j ⟨0⟩

/-- One iteration of the `Populate` loop, for one input id:
`CHECK_LT(id, _capacity)` (fatal = `none`), then the CAS on the slot's tag;
the winner takes `local = _num_items++`, writes it into the origin slot and
writes its id into `_n2o_table[local]`. -/
def populateStep (ht : ParallelHashTable) (id : Nat) : Option ParallelHashTable :=
  if id < ht.capacity then
    if (ht.getO id).id = Constant.kEmptyKey then
      some { ht with
        o2n_table := ht.o2n_table.set id ⟨id, ht.num_items⟩,
        n2o_table := ht.n2o_table.set ht.num_items ⟨id⟩,
        num_items := ht.num_items + 1 }
    else
      some ht
  else
    none

/-- `ParallelHashTable::Populate(input, num_input)`: the loop over the input
batch (sequentialized; the batch is the list of ids `input[0..num_input)`). -/
def Populate (ht : ParallelHashTable) : List Nat → Option ParallelHashTable
  | [] => some ht
  | id :: rest =>
    match ht.populateStep id with
    | some ht' => ht'.Populate rest
    | none => none

/-- `ParallelHashTable::MapNodes(output, num_ouput)` (parameter spelling from
the source): `CHECK_LE(num_ouput, _num_items)`, then `output[i] =
_n2o_table[i].global` for each `i`.  The table state is returned alongside
the output array to make the absence of mutation explicit. -/
def MapNodes (ht : ParallelHashTable) (num_ouput : Nat) :
    Option (List Nat × ParallelHashTable) :=
  if num_ouput ≤ ht.num_items then
    some ((List.range num_ouput).map (fun i => (ht.getN i).global), ht)
  else
    none

/-- One iteration of the `MapEdges` loop for one (src, dst) pair:
`CHECK_LT` on both endpoints, then read both origin slots' `local` fields. -/
def mapEdgeStep (ht : ParallelHashTable) (s d : Nat) : Option (Nat × Nat) :=
  if s < ht.capacity then
    if d < ht.capacity then
      some ((ht.getO s).loc, (ht.getO d).loc)
    else
      none
  else
    none

/-- The `MapEdges` loop over the position-aligned pairs. -/
def mapEdgesLoop (ht : ParallelHashTable) : List (Nat × Nat) → Option (List (Nat × Nat))
  | [] => some []
  | p :: ps =>
    match ht.mapEdgeStep p.1 p.2 with
    | some q =>
      match ht.mapEdgesLoop ps with
      | some qs => some (q :: qs)
      | none => none
    | none => none

/-- `ParallelHashTable::MapEdges(src, dst, len, new_src, new_dst)`: the two
input arrays of length `len` are `src` and `dst`; the outputs `new_src` and
`new_dst` are returned, together with the table state (the loop body writes
only the caller's output arrays). -/
def MapEdges (ht : ParallelHashTable) (src dst : List Nat) :
    Option (List Nat × List Nat × ParallelHashTable) :=
  match ht.mapEdgesLoop (src.zip dst) with
  | some qs => some (qs.map Prod.fst, qs.map Prod.snd, ht)
  | none => none

/-- The `Reset` loop after `n` iterations: `_o2n_table[i].id = kEmptyKey` for
`i = 0 .. n-1`; only the tag field is written, `local` is left as-is. -/
def resetLoop (t : List BukcetO2N) : Nat → List BukcetO2N
  | 0 => t
  | n + 1 =>
    let t' := resetLoop t n
    t'.set n { t'.getD n ⟨Constant.kEmptyKey, 0⟩ with id := Constant.kEmptyKey }

/-- `ParallelHashTable::Reset()`: `_num_items = 0`, then the loop over all
`_capacity` origin slots resetting each tag to the empty sentinel. -/
def Reset (ht : ParallelHashTable) : ParallelHashTable :=
  { ht with num_items := 0, o2n_table := resetLoop ht.o2n_table ht.capacity }

/-- A sequence of `Populate` calls, one per batch. -/
def runPopulates (ht : ParallelHashTable) : List (List Nat) → Option ParallelHashTable
  | [] => some ht
  | b :: bs =>
    match ht.Populate b with
    | some ht' => ht'.runPopulates bs
    | none => none

/-- One call of the table's public interface, with outputs discarded. -/
inductive TableOp where
  | populate (input : List Nat)
  | mapNodes (num_ouput : Nat)
  | mapEdges (src dst : List Nat)
  | reset
deriving Repr, DecidableEq

/-- Run one operation, keeping the table state it leaves behind. -/
def runOp (ht : ParallelHashTable) : TableOp → Option ParallelHashTable
  | .populate input => ht.Populate input
  | .mapNodes n => (ht.MapNodes n).map Prod.snd
  | .mapEdges src dst => (ht.MapEdges src dst).map (fun r => r.2.2)
  | .reset => some ht.Reset

/-- Run a sequence of operations; `none` as soon as one hits a fatal check. -/
def runOps (ht : ParallelHashTable) : List TableOp → Option ParallelHashTable
  | [] => some ht
  | op :: ops =>
    match ht.runOp op with
    | some ht' => ht'.runOps ops
    | none => none

/-- A global id is present (its origin slot is claimed): the tag is not the
empty sentinel. -/
def claimed (ht : ParallelHashTable) (x : Nat) : Prop :=
  (ht.getO x).id ≠ Constant.kEmptyKey

instance (ht : ParallelHashTable) (x : Nat) : Decidable (ht.claimed x) := by
  unfold claimed
  exact inferInstance

/-- The set of origin slots (indices below the capacity) whose tag is not the
empty sentinel. -/
def claimedFinset (ht : ParallelHashTable) : Finset Nat :=
  (Finset.range ht.capacity).filter (fun x => ht.claimed x)

/-- The representation invariant of a populated table: array sizes match the
capacity, the sentinel lies outside the id universe, and the two arrays are
mutual inverses below `num_items`. -/
structure Inv (ht : ParallelHashTable) : Prop where
  o2n_len : ht.o2n_table.length = ht.capacity
  n2o_len : ht.n2o_table.length = ht.capacity
  cap_le : ht.capacity ≤ Constant.kEmptyKey
  o2n_sound : ∀ x, x < ht.capacity →
    (ht.getO x).id = Constant.kEmptyKey ∨
    ((ht.getO x).id = x ∧ (ht.getO x).loc < ht.num_items ∧
      (ht.getN (ht.getO x).loc).global = x)
  n2o_sound : ∀ j, j < ht.num_items →
    (ht.getN j).global < ht.capacity ∧
    (ht.getO (ht.getN j).global).id = (ht.getN j).global ∧
    (ht.getO (ht.getN j).global).loc = j

/-- A small concrete table for witnesses: capacity 3, allocator garbage in
both arrays, followed by the `Reset` that establishes a valid empty state. -/
def sampleTable : ParallelHashTable :=
  (construct 3 [⟨5, 1⟩, ⟨0, 2⟩, ⟨7, 9⟩] [⟨6⟩, ⟨6⟩, ⟨6⟩]).Reset

/-- The sample table after `Populate([1, 2])`: ids 1 and 2 hold local
indices 0 and 1. -/
def samplePop : ParallelHashTable :=
  (sampleTable.Populate [1, 2]).getD sampleTable

/-! ### List access helpers -/

theorem getD_set_self {α : Type} (l : List α) (i : Nat) (a d : α) (h : i < l.length) :
    (l.set i a).getD i d = a := by
  rw [List.getD_eq_getElem _ _ (by simpa using h)]
  simp [List.getElem_set, h]

theorem getD_set_ne {α : Type} (l : List α) {i j : Nat} (a d : α) (h : i ≠ j) :
    (l.set i a).getD j d = l.getD j d := by
  rcases Nat.lt_or_ge j l.length with hj | hj
  · rw [List.getD_eq_getElem _ _ (by simpa using hj), List.getD_eq_getElem _ _ hj]
    simp [List.getElem_set, h]
  · rw [List.getD_eq_default _ _ (by simpa using hj), List.getD_eq_default _ _ hj]

/-! ### Reset loop lemmas -/

theorem resetLoop_length (t : List BukcetO2N) (n : Nat) :
    (resetLoop t n).length = t.length := by
  induction n with
  | zero => rfl
  | succ n ih => simp [resetLoop, ih]

theorem resetLoop_getD_ge (t : List BukcetO2N) (n i : Nat) (d : BukcetO2N) (h : n ≤ i) :
    (resetLoop t n).getD i d = t.getD i d := by
  induction n with
  | zero => rfl
  | succ n ih =>
    have hne : n ≠ i := Nat.ne_of_lt (Nat.lt_of_lt_of_le (Nat.lt_succ_self n) h)
    rw [resetLoop, getD_set_ne _ _ _ hne, ih (Nat.le_of_succ_le h)]

theorem resetLoop_getD_lt (t : List BukcetO2N) (n i : Nat) (d : BukcetO2N)
    (h : i < n) (hlen : i < t.length) :
    (resetLoop t n).getD i d = { t.getD i d with id := Constant.kEmptyKey } := by
  induction n with
  | zero => exact absurd h (Nat.not_lt_zero i)
  | succ n ih =>
    rcases Nat.lt_or_ge i n with hin | hin
    · rw [resetLoop, getD_set_ne _ _ _ (Nat.ne_of_gt hin), ih hin]
    · have hi : i = n := Nat.le_antisymm (Nat.le_of_lt_succ h) hin
      subst hi
      rw [resetLoop]
      rw [getD_set_self _ _ _ _ (by rw [resetLoop_length]; exact hlen)]
      rw [resetLoop_getD_ge t i i _ (Nat.le_refl i)]
      rw [List.getD_eq_getElem t _ hlen, List.getD_eq_getElem t d hlen]

/-! ### Reset lemmas -/

theorem Reset_num_items (ht : ParallelHashTable) : ht.Reset.num_items = 0 := rfl

theorem Reset_n2o (ht : ParallelHashTable) : ht.Reset.n2o_table = ht.n2o_table := rfl

theorem Reset_capacity (ht : ParallelHashTable) : ht.Reset.capacity = ht.capacity := rfl

theorem Reset_o2n_length (ht : ParallelHashTable) :
    ht.Reset.o2n_table.length = ht.o2n_table.length := resetLoop_length _ _

theorem Reset_getO (ht : ParallelHashTable) (i : Nat)
    (hlen : ht.o2n_table.length = ht.capacity) (hi : i < ht.capacity) :
    ht.Reset.getO i = { ht.getO i with id := Constant.kEmptyKey } := by
  unfold Reset getO
  exact resetLoop_getD_lt _ _ _ _ hi (hlen ▸ hi)

theorem Reset_inv (ht : ParallelHashTable)
    (h1 : ht.o2n_table.length = ht.capacity) (h2 : ht.n2o_table.length = ht.capacity)
    (h3 : ht.capacity ≤ Constant.kEmptyKey) : Inv ht.Reset := by
  refine ⟨(Reset_o2n_length ht).trans h1, h2, h3, ?_, ?_⟩
  · intro x hx
    left
    rw [Reset_getO ht x h1 hx]
  · intro j hj
    exact absurd hj (Nat.not_lt_zero j)

theorem Reset_claimedFinset (ht : ParallelHashTable)
    (h1 : ht.o2n_table.length = ht.capacity) :
    ht.Reset.claimedFinset = ∅ := by
  apply Finset.eq_empty_of_forall_not_mem
  intro x hx
  rw [claimedFinset, Finset.mem_filter, Finset.mem_range] at hx
  obtain ⟨hlt, hcl⟩ := hx
  exact hcl (congrArg BukcetO2N.id (Reset_getO ht x h1 hlt))

/-! ### Counting claimed slots -/

theorem claimed_of_tag_eq (ht : ParallelHashTable) (x : Nat)
    (hlt : x < ht.capacity) (hcap : ht.capacity ≤ Constant.kEmptyKey)
    (htag : (ht.getO x).id = x) : ht.claimed x := by
  rw [claimed, htag]
  exact Nat.ne_of_lt (Nat.lt_of_lt_of_le hlt hcap)

theorem card_claimed (ht : ParallelHashTable) (hInv : Inv ht) :
    ht.claimedFinset.card = ht.num_items := by
  have himg : ht.claimedFinset =
      (Finset.range ht.num_items).image (fun j => (ht.getN j).global) := by
    ext x
    rw [claimedFinset, Finset.mem_filter, Finset.mem_range, Finset.mem_image]
    constructor
    · rintro ⟨hx, hcl⟩
      rcases hInv.o2n_sound x hx with h | ⟨_, hloc, hglob⟩
      · exact absurd h hcl
      · exact ⟨(ht.getO x).loc, Finset.mem_range.mpr hloc, hglob⟩
    · rintro ⟨j, hj, rfl⟩
      rw [Finset.mem_range] at hj
      obtain ⟨hg, htag, -⟩ := hInv.n2o_sound j hj
      exact ⟨hg, claimed_of_tag_eq ht _ hg hInv.cap_le htag⟩
  rw [himg, Finset.card_image_of_injOn, Finset.card_range]
  intro j1 h1 j2 h2 heq
  rw [Finset.coe_range, Set.mem_Iio] at h1 h2
  have heq' : (ht.getN j1).global = (ht.getN j2).global := heq
  have e1 := (hInv.n2o_sound j1 h1).2.2
  have e2 := (hInv.n2o_sound j2 h2).2.2
  rw [heq'] at e1
  exact e1.symm.trans e2

theorem num_items_lt_of_unclaimed (ht : ParallelHashTable) (x : Nat) (hInv : Inv ht)
    (hx : x < ht.capacity) (hun : ¬ ht.claimed x) : ht.num_items < ht.capacity := by
  have hsub : ht.claimedFinset ⊆ Finset.range ht.capacity := Finset.filter_subset _ _
  have hss : ht.claimedFinset ⊂ Finset.range ht.capacity := by
    refine (Finset.ssubset_iff_of_subset hsub).mpr ⟨x, Finset.mem_range.mpr hx, ?_⟩
    rw [claimedFinset, Finset.mem_filter]
    rintro ⟨-, hcl⟩
    exact hun hcl
  have hcard := Finset.card_lt_card hss
  rwa [card_claimed ht hInv, Finset.card_range] at hcard

/-! ### Populate step lemmas -/

theorem populateStep_claimed_eq (ht : ParallelHashTable) (x : Nat)
    (hx : x < ht.capacity) (hcl : ht.claimed x) : ht.populateStep x = some ht := by
  rw [populateStep, if_pos hx, if_neg hcl]

theorem populateStep_none_iff (ht : ParallelHashTable) (x : Nat) :
    ht.populateStep x = none ↔ ht.capacity ≤ x := by
  rw [populateStep]
  rcases Nat.lt_or_ge x ht.capacity with h | h
  · rw [if_pos h]
    constructor
    · intro hc
      by_cases he : (ht.getO x).id = Constant.kEmptyKey
      · rw [if_pos he] at hc; exact absurd hc (by simp)
      · rw [if_neg he] at hc; exact absurd hc (by simp)
    · intro hc; exact absurd h (Nat.not_lt_of_ge hc)
  · rw [if_neg (Nat.not_lt_of_ge h)]
    exact ⟨fun _ => h, fun _ => rfl⟩

theorem populateStep_capacity (ht ht' : ParallelHashTable) (x : Nat)
    (h : ht.populateStep x = some ht') : ht'.capacity = ht.capacity := by
  rw [populateStep] at h
  by_cases hx : x < ht.capacity
  · rw [if_pos hx] at h
    by_cases he : (ht.getO x).id = Constant.kEmptyKey
    · rw [if_pos he] at h
      cases h
      rfl
    · rw [if_neg he] at h
      cases h
      rfl
  · rw [if_neg hx] at h
    cases h

theorem populateStep_num_mono (ht ht' : ParallelHashTable) (x : Nat)
    (h : ht.populateStep x = some ht') : ht.num_items ≤ ht'.num_items := by
  rw [populateStep] at h
  by_cases hx : x < ht.capacity
  · rw [if_pos hx] at h
    by_cases he : (ht.getO x).id = Constant.kEmptyKey
    · rw [if_pos he] at h
      cases h
      exact Nat.le_succ _
    · rw [if_neg he] at h
      cases h
      exact Nat.le_refl _
  · rw [if_neg hx] at h
    cases h

theorem claimedFinset_update (ht ht' : ParallelHashTable) (x m : Nat)
    (hcap : ht'.capacity = ht.capacity) (hcaple : ht.capacity ≤ Constant.kEmptyKey)
    (hx : x < ht.capacity)
    (hOx : ht'.getO x = ⟨x, m⟩)
    (hOy : ∀ y, y ≠ x → ht'.getO y = ht.getO y) :
    ht'.claimedFinset = insert x ht.claimedFinset := by
  ext y
  rw [Finset.mem_insert, claimedFinset, claimedFinset, Finset.mem_filter, Finset.mem_filter,
    Finset.mem_range, Finset.mem_range, hcap]
  constructor
  · rintro ⟨hy, hcl⟩
    by_cases hyx : y = x
    · exact Or.inl hyx
    · refine Or.inr ⟨hy, ?_⟩
      rwa [claimed, hOy y hyx] at hcl
  · rintro (rfl | ⟨hy, hcl⟩)
    · refine ⟨hx, ?_⟩
      rw [claimed, hOx]
      exact Nat.ne_of_lt (Nat.lt_of_lt_of_le hx hcaple)
    · refine ⟨hy, ?_⟩
      by_cases hyx : y = x
      · subst hyx
        rw [claimed, hOx]
        exact Nat.ne_of_lt (Nat.lt_of_lt_of_le hy hcaple)
      · rw [claimed, hOy y hyx]
        exact hcl

theorem Inv_fresh_update (ht ht' : ParallelHashTable) (x : Nat) (hInv : Inv ht)
    (hx : x < ht.capacity) (htag : (ht.getO x).id = Constant.kEmptyKey)
    (hcap : ht'.capacity = ht.capacity)
    (hnum : ht'.num_items = ht.num_items + 1)
    (hlen1 : ht'.o2n_table.length = ht.o2n_table.length)
    (hlen2 : ht'.n2o_table.length = ht.n2o_table.length)
    (hOx : ht'.getO x = ⟨x, ht.num_items⟩)
    (hOy : ∀ y, y ≠ x → ht'.getO y = ht.getO y)
    (hNk : ht'.getN ht.num_items = ⟨x⟩)
    (hNj : ∀ j, j ≠ ht.num_items → ht'.getN j = ht.getN j) :
    Inv ht' := by
  constructor
  · rw [hlen1, hcap]
    exact hInv.o2n_len
  · rw [hlen2, hcap]
    exact hInv.n2o_len
  · rw [hcap]
    exact hInv.cap_le
  · intro y hy
    rw [hcap] at hy
    by_cases hyx : y = x
    · subst hyx
      refine Or.inr ?_
      rw [hOx]
      refine ⟨rfl, ?_, ?_⟩
      · rw [hnum]
        exact Nat.lt_succ_self _
      · rw [hNk]
    · rw [hOy y hyx]
      rcases hInv.o2n_sound y hy with h | ⟨t1, t2, t3⟩
      · exact Or.inl h
      · refine Or.inr ⟨t1, ?_, ?_⟩
        · rw [hnum]
          exact Nat.lt_succ_of_lt t2
        · rw [hNj _ (Nat.ne_of_lt t2)]
          exact t3
  · intro j hj
    rw [hnum] at hj
    rcases Nat.lt_or_ge j ht.num_items with hjlt | hjge
    · rw [hNj _ (Nat.ne_of_lt hjlt)]
      obtain ⟨hg, htg, hlc⟩ := hInv.n2o_sound j hjlt
      have hgx : (ht.getN j).global ≠ x := by
        intro he
        rw [he, htag] at htg
        exact Nat.ne_of_lt (Nat.lt_of_lt_of_le hx hInv.cap_le) htg.symm
      rw [hOy _ hgx, hcap]
      exact ⟨hg, htg, hlc⟩
    · have hj' : j = ht.num_items := Nat.le_antisymm (Nat.le_of_lt_succ hj) hjge
      subst hj'
      rw [hNk]
      rw [hOx]
      rw [hcap]
      exact ⟨hx, rfl, rfl⟩

theorem populateStep_fresh (ht : ParallelHashTable) (x : Nat) (hInv : Inv ht)
    (hx : x < ht.capacity) (hun : ¬ ht.claimed x) :
    ∃ ht', ht.populateStep x = some ht' ∧
      ht'.capacity = ht.capacity ∧
      ht'.num_items = ht.num_items + 1 ∧
      ht'.o2n_table.length = ht.o2n_table.length ∧
      ht'.n2o_table.length = ht.n2o_table.length ∧
      ht'.getO x = ⟨x, ht.num_items⟩ ∧
      (∀ y, y ≠ x → ht'.getO y = ht.getO y) ∧
      ht'.getN ht.num_items = ⟨x⟩ ∧
      (∀ j, j ≠ ht.num_items → ht'.getN j = ht.getN j) ∧
      ht'.claimedFinset = insert x ht.claimedFinset ∧
      Inv ht' := by
  have htag : (ht.getO x).id = Constant.kEmptyKey := by
    by_contra h
    exact hun h
  have hxlen : x < ht.o2n_table.length := hInv.o2n_len ▸ hx
  have hklen : ht.num_items < ht.n2o_table.length :=
    hInv.n2o_len ▸ num_items_lt_of_unclaimed ht x hInv hx hun
  refine ⟨{ ht with
      o2n_table := ht.o2n_table.set x ⟨x, ht.num_items⟩,
      n2o_table := ht.n2o_table.set ht.num_items ⟨x⟩,
      num_items := ht.num_items + 1 },
    by rw [populateStep, if_pos hx, if_pos htag], rfl, rfl, by simp, by simp,
    ?_, ?_, ?_, ?_, ?_, ?_⟩
  · exact getD_set_self _ _ _ _ hxlen
  · intro y hy
    exact getD_set_ne _ _ _ (fun h => hy h.symm)
  · exact getD_set_self _ _ _ _ hklen
  · intro j hj
    exact getD_set_ne _ _ _ (fun h => hj h.symm)
  · exact claimedFinset_update ht _ x ht.num_items rfl hInv.cap_le hx
      (getD_set_self _ _ _ _ hxlen)
      (fun y hy => getD_set_ne _ _ _ (fun h => hy h.symm))
  · exact Inv_fresh_update ht _ x hInv hx htag rfl rfl (by simp) (by simp)
      (getD_set_self _ _ _ _ hxlen)
      (fun y hy => getD_set_ne _ _ _ (fun h => hy h.symm))
      (getD_set_self _ _ _ _ hklen)
      (fun j hj => getD_set_ne _ _ _ (fun h => hj h.symm))

/-! ### Populate lemmas -/

theorem Populate_nil (ht : ParallelHashTable) : ht.Populate [] = some ht := rfl

theorem Populate_cons (ht : ParallelHashTable) (x : Nat) (xs : List Nat) :
    ht.Populate (x :: xs) =
      match ht.populateStep x with
      | some ht' => ht'.Populate xs
      | none => none := rfl

theorem Populate_capacity (ht ht' : ParallelHashTable) (L : List Nat)
    (h : ht.Populate L = some ht') : ht'.capacity = ht.capacity := by
  induction L generalizing ht with
  | nil =>
    cases h
    rfl
  | cons x xs ih =>
    rw [Populate_cons] at h
    cases hstep : ht.populateStep x with
    | none => rw [hstep] at h; cases h
    | some ht₁ =>
      rw [hstep] at h
      exact (ih ht₁ h).trans (populateStep_capacity ht ht₁ x hstep)

theorem Populate_isSome_iff (ht : ParallelHashTable) (L : List Nat) :
    (ht.Populate L).isSome ↔ ∀ x ∈ L, x < ht.capacity := by
  induction L generalizing ht with
  | nil => simp [Populate_nil]
  | cons x xs ih =>
    rw [Populate_cons]
    cases hstep : ht.populateStep x with
    | none =>
      have hge := (populateStep_none_iff ht x).mp hstep
      simp only [Option.isSome_none]
      constructor
      · intro h
        exact absurd h (by simp)
      · intro h
        exact absurd (h x (by simp)) (Nat.not_lt_of_ge hge)
    | some ht₁ =>
      have hlt : x < ht.capacity := by
        by_contra h
        rw [(populateStep_none_iff ht x).mpr (Nat.le_of_not_lt h)] at hstep
        cases hstep
      have hcap := populateStep_capacity ht ht₁ x hstep
      rw [ih ht₁, hcap]
      simp [hlt]

theorem Populate_num_mono (ht ht' : ParallelHashTable) (L : List Nat)
    (h : ht.Populate L = some ht') : ht.num_items ≤ ht'.num_items := by
  induction L generalizing ht with
  | nil =>
    cases h
    exact Nat.le_refl _
  | cons x xs ih =>
    rw [Populate_cons] at h
    cases hstep : ht.populateStep x with
    | none => rw [hstep] at h; cases h
    | some ht₁ =>
      rw [hstep] at h
      exact Nat.le_trans (populateStep_num_mono ht ht₁ x hstep) (ih ht₁ h)

theorem Populate_sound (ht : ParallelHashTable) (L : List Nat) (hInv : Inv ht)
    (hL : ∀ x ∈ L, x < ht.capacity) :
    ∃ ht', ht.Populate L = some ht' ∧ Inv ht' ∧
      ht'.capacity = ht.capacity ∧
      ht'.claimedFinset = ht.claimedFinset ∪ L.toFinset ∧
      (∀ x, ht.claimed x → ht'.getO x = ht.getO x) ∧
      (∀ j, j < ht.num_items → ht'.getN j = ht.getN j) ∧
      ht.num_items ≤ ht'.num_items := by
  induction L generalizing ht with
  | nil =>
    exact ⟨ht, Populate_nil ht, hInv, rfl, by simp, fun x _ => rfl, fun j _ => rfl,
      Nat.le_refl _⟩
  | cons x xs ih =>
    have hx : x < ht.capacity := hL x (by simp)
    by_cases hcl : ht.claimed x
    · obtain ⟨ht', hrun, hinv', hcap', hcf', hO', hN', hmono⟩ :=
        ih ht hInv (fun y hy => hL y (by simp [hy]))
      refine ⟨ht', ?_, hinv', hcap', ?_, hO', hN', hmono⟩
      · rw [Populate_cons, populateStep_claimed_eq ht x hx hcl]
        exact hrun
      · rw [hcf', List.toFinset_cons, Finset.union_insert,
          Finset.insert_eq_self.mpr (Finset.mem_union_left _ ?_)]
        rw [claimedFinset, Finset.mem_filter, Finset.mem_range]
        exact ⟨hx, hcl⟩
    · obtain ⟨ht₁, hstep, hcap₁, hnum₁, hlen1, hlen2, hOx, hOy, hNk, hNj, hcf₁, hinv₁⟩ :=
        populateStep_fresh ht x hInv hx hcl
      obtain ⟨ht', hrun, hinv', hcap', hcf', hO', hN', hmono⟩ :=
        ih ht₁ hinv₁ (fun y hy => hcap₁ ▸ hL y (by simp [hy]))
      refine ⟨ht', ?_, hinv', hcap'.trans hcap₁, ?_, ?_, ?_, ?_⟩
      · rw [Populate_cons, hstep]
        exact hrun
      · rw [hcf', hcf₁, List.toFinset_cons, Finset.insert_union, Finset.union_insert]
      · intro y hy
        have hyx : y ≠ x := fun h => hcl (h ▸ hy)
        have hcl₁ : ht₁.claimed y := by
          rw [claimed, hOy y hyx]
          exact hy
        rw [hO' y hcl₁, hOy y hyx]
      · intro j hj
        have hj₁ : j < ht₁.num_items := by
          rw [hnum₁]
          exact Nat.lt_succ_of_lt hj
        rw [hN' j hj₁, hNj j (Nat.ne_of_lt hj)]
      · rw [hnum₁] at hmono
        exact Nat.le_trans (Nat.le_succ _) hmono

theorem Populate_append (ht : ParallelHashTable) (l1 l2 : List Nat) :
    ht.Populate (l1 ++ l2) = (ht.Populate l1).bind (fun ht₁ => ht₁.Populate l2) := by
  induction l1 generalizing ht with
  | nil => simp [Populate_nil]
  | cons x xs ih =>
    rw [List.cons_append, Populate_cons, Populate_cons]
    cases hstep : ht.populateStep x with
    | none => simp
    | some ht₁ => exact ih ht₁

theorem runPopulates_eq (ht : ParallelHashTable) (bs : List (List Nat)) :
    ht.runPopulates bs = ht.Populate bs.flatten := by
  induction bs generalizing ht with
  | nil => rfl
  | cons b bs ih =>
    rw [runPopulates, List.flatten_cons, Populate_append]
    cases hb : ht.Populate b with
    | none => rfl
    | some ht₁ => exact ih ht₁

/-! ### MapNodes and MapEdges lemmas -/

theorem MapNodes_le (ht : ParallelHashTable) (n : Nat) (h : n ≤ ht.num_items) :
    ht.MapNodes n = some ((List.range n).map (fun i => (ht.getN i).global), ht) := by
  rw [MapNodes, if_pos h]

theorem MapNodes_gt (ht : ParallelHashTable) (n : Nat) (h : ht.num_items < n) :
    ht.MapNodes n = none := by
  rw [MapNodes, if_neg (Nat.not_le_of_lt h)]

theorem mapEdgeStep_lt (ht : ParallelHashTable) (s d : Nat)
    (hs : s < ht.capacity) (hd : d < ht.capacity) :
    ht.mapEdgeStep s d = some ((ht.getO s).loc, (ht.getO d).loc) := by
  rw [mapEdgeStep, if_pos hs, if_pos hd]

theorem mapEdgesLoop_eq (ht : ParallelHashTable) (ps : List (Nat × Nat))
    (h : ∀ p ∈ ps, p.1 < ht.capacity ∧ p.2 < ht.capacity) :
    ht.mapEdgesLoop ps =
      some (ps.map (fun p => ((ht.getO p.1).loc, (ht.getO p.2).loc))) := by
  induction ps with
  | nil => rfl
  | cons p ps ih =>
    obtain ⟨hs, hd⟩ := h p (by simp)
    rw [mapEdgesLoop, mapEdgeStep_lt ht p.1 p.2 hs hd, ih (fun q hq => h q (by simp [hq]))]
    simp

theorem mapEdgesLoop_bounds (ht : ParallelHashTable) (ps : List (Nat × Nat))
    (h : (ht.mapEdgesLoop ps).isSome) :
    ∀ p ∈ ps, p.1 < ht.capacity ∧ p.2 < ht.capacity := by
  induction ps with
  | nil =>
    intro p hp
    simp at hp
  | cons p ps ih =>
    rw [mapEdgesLoop] at h
    by_cases hs : p.1 < ht.capacity
    · by_cases hd : p.2 < ht.capacity
      · rw [mapEdgeStep_lt ht p.1 p.2 hs hd] at h
        cases hloop : ht.mapEdgesLoop ps with
        | none =>
          rw [hloop] at h
          simp at h
        | some qs =>
          intro q hq
          rcases List.mem_cons.mp hq with rfl | hq'
          · exact ⟨hs, hd⟩
          · exact ih (by rw [hloop]; rfl) q hq'
      · rw [mapEdgeStep, if_pos hs, if_neg hd] at h
        simp at h
    · rw [mapEdgeStep, if_neg hs] at h
      simp at h

theorem mapEdgesLoop_isSome_iff (ht : ParallelHashTable) (ps : List (Nat × Nat)) :
    (ht.mapEdgesLoop ps).isSome ↔ ∀ p ∈ ps, p.1 < ht.capacity ∧ p.2 < ht.capacity :=
  ⟨mapEdgesLoop_bounds ht ps, fun h => by rw [mapEdgesLoop_eq ht ps h]; rfl⟩

theorem MapEdges_eq (ht : ParallelHashTable) (src dst : List Nat)
    (h : ∀ p ∈ src.zip dst, p.1 < ht.capacity ∧ p.2 < ht.capacity) :
    ht.MapEdges src dst =
      some ((src.zip dst).map (fun p => (ht.getO p.1).loc),
        (src.zip dst).map (fun p => (ht.getO p.2).loc), ht) := by
  rw [MapEdges, mapEdgesLoop_eq ht _ h]
  simp [List.map_map, Function.comp]

theorem MapEdges_isSome_iff (ht : ParallelHashTable) (src dst : List Nat) :
    (ht.MapEdges src dst).isSome ↔
      ∀ p ∈ src.zip dst, p.1 < ht.capacity ∧ p.2 < ht.capacity := by
  rw [MapEdges]
  cases hloop : ht.mapEdgesLoop (src.zip dst) with
  | none =>
    rw [← mapEdgesLoop_isSome_iff, hloop]
    simp
  | some qs =>
    rw [← mapEdgesLoop_isSome_iff, hloop]
    simp

theorem MapEdges_state (ht : ParallelHashTable) (src dst : List Nat)
    (os od : List Nat) (ht₂ : ParallelHashTable)
    (h : ht.MapEdges src dst = some (os, od, ht₂)) : ht₂ = ht := by
  rw [MapEdges] at h
  cases hloop : ht.mapEdgesLoop (src.zip dst) with
  | none => rw [hloop] at h; cases h
  | some qs =>
    rw [hloop] at h
    cases h
    rfl

/-! ### Invariant preservation across the public interface -/

theorem runOp_inv (ht ht' : ParallelHashTable) (op : TableOp) (hInv : Inv ht)
    (h : ht.runOp op = some ht') : Inv ht' := by
  cases op with
  | populate input =>
    have hsome : (ht.Populate input).isSome := by
      rw [runOp] at h
      rw [h]
      rfl
    obtain ⟨ht'', hrun, hinv'', -⟩ :=
      Populate_sound ht input hInv ((Populate_isSome_iff ht input).mp hsome)
    rw [runOp, hrun] at h
    cases h
    exact hinv''
  | mapNodes n =>
    rw [runOp] at h
    by_cases hn : n ≤ ht.num_items
    · rw [MapNodes_le ht n hn] at h
      cases h
      exact hInv
    · rw [MapNodes_gt ht n (Nat.lt_of_not_ge hn)] at h
      cases h
  | mapEdges src dst =>
    rw [runOp] at h
    cases hrun : ht.MapEdges src dst with
    | none => rw [hrun] at h; cases h
    | some r =>
      rw [hrun] at h
      cases h
      have hstate := MapEdges_state ht src dst r.1 r.2.1 r.2.2 (by rw [hrun])
      show r.2.2.Inv
      rw [hstate]
      exact hInv
  | reset =>
    rw [runOp] at h
    cases h
    exact Reset_inv ht hInv.o2n_len hInv.n2o_len hInv.cap_le

theorem runOps_inv (ht ht' : ParallelHashTable) (ops : List TableOp) (hInv : Inv ht)
    (h : ht.runOps ops = some ht') : Inv ht' := by
  induction ops generalizing ht with
  | nil =>
    cases h
    exact hInv
  | cons op ops ih =>
    rw [runOps] at h
    cases hop : ht.runOp op with
    | none => rw [hop] at h; cases h
    | some ht₁ =>
      rw [hop] at h
      exact ih ht₁ (runOp_inv ht ht₁ op hInv hop) h

/-! ### Claim theorems -/

/-- Claim C8: `Construct(capacity)` allocates the origin array and the local
array each sized for `capacity` entries and sets `num_items` to 0, but does
not write any origin-array slot: both arrays keep exactly the contents the
allocator returned (in particular no origin tag is set to the empty
sentinel at construction time). -/
theorem claim_C8 (sz : Nat) (m1 : List BukcetO2N) (m2 : List BucketN2O)
    (hm1 : m1.length = sz) (hm2 : m2.length = sz) :
    (construct sz m1 m2).num_items = 0 ∧
    (construct sz m1 m2).capacity = sz ∧
    (construct sz m1 m2).o2n_table.length = sz ∧
    (construct sz m1 m2).n2o_table.length = sz ∧
    (construct sz m1 m2).o2n_table = m1 ∧
    (construct sz m1 m2).n2o_table = m2 :=
  ⟨rfl, rfl, hm1, hm2, rfl, rfl⟩

/-- Witness for C8 at a concrete allocation whose origin tags are all
distinct from the empty sentinel. -/
theorem claim_C8_witness :
    ([⟨5, 1⟩, ⟨0, 2⟩] : List BukcetO2N).length = 2 ∧
    ([⟨6⟩, ⟨6⟩] : List BucketN2O).length = 2 ∧
    ((construct 2 [⟨5, 1⟩, ⟨0, 2⟩] [⟨6⟩, ⟨6⟩]).num_items = 0 ∧
      (construct 2 [⟨5, 1⟩, ⟨0, 2⟩] [⟨6⟩, ⟨6⟩]).capacity = 2 ∧
      (construct 2 [⟨5, 1⟩, ⟨0, 2⟩] [⟨6⟩, ⟨6⟩]).o2n_table.length = 2 ∧
      (construct 2 [⟨5, 1⟩, ⟨0, 2⟩] [⟨6⟩, ⟨6⟩]).n2o_table.length = 2 ∧
      (construct 2 [⟨5, 1⟩, ⟨0, 2⟩] [⟨6⟩, ⟨6⟩]).o2n_table = [⟨5, 1⟩, ⟨0, 2⟩] ∧
      (construct 2 [⟨5, 1⟩, ⟨0, 2⟩] [⟨6⟩, ⟨6⟩]).n2o_table = [⟨6⟩, ⟨6⟩]) :=
  ⟨rfl, rfl, claim_C8 2 [⟨5, 1⟩, ⟨0, 2⟩] [⟨6⟩, ⟨6⟩] rfl rfl⟩

/-- Claim C9: `MapEdges` never mutates the table: for every input whose ids
are all below the capacity, the origin array, the local array, `num_items`
and the capacity are identical before and after the call. -/
theorem claim_C9 (ht ht₂ : ParallelHashTable) (src dst os od : List Nat)
    (hb : ∀ p ∈ src.zip dst, p.1 < ht.capacity ∧ p.2 < ht.capacity)
    (h : ht.MapEdges src dst = some (os, od, ht₂)) :
    ht₂.o2n_table = ht.o2n_table ∧ ht₂.n2o_table = ht.n2o_table ∧
    ht₂.num_items = ht.num_items ∧ ht₂.capacity = ht.capacity := by
  have hstate := MapEdges_state ht src dst os od ht₂ h
  subst hstate
  exact ⟨rfl, rfl, rfl, rfl⟩

/-- Witness for C9 on the populated sample table. -/
theorem claim_C9_witness :
    (∀ p ∈ ([1, 2].zip [2, 2] : List (Nat × Nat)),
      p.1 < samplePop.capacity ∧ p.2 < samplePop.capacity) ∧
    samplePop.MapEdges [1, 2] [2, 2] =
      some ([0, 1], [1, 1], samplePop) ∧
    (samplePop.o2n_table = samplePop.o2n_table ∧
      samplePop.n2o_table = samplePop.n2o_table ∧
      samplePop.num_items = samplePop.num_items ∧
      samplePop.capacity = samplePop.capacity) :=
  ⟨by decide, by decide,
    claim_C9 samplePop samplePop [1, 2] [2, 2] [0, 1] [1, 1] (by decide) (by decide)⟩

/-- Claim C10: `num_items` is monotonically non-decreasing under `Populate`,
for every table state and every input batch whose ids are below the
capacity; `Populate` on an empty batch leaves the entire state unchanged. -/
theorem claim_C10 (ht : ParallelHashTable) (L : List Nat)
    (hL : ∀ x ∈ L, x < ht.capacity) :
    ht.Populate [] = some ht ∧
    ∃ ht', ht.Populate L = some ht' ∧ ht.num_items ≤ ht'.num_items := by
  refine ⟨Populate_nil ht, ?_⟩
  have hsome : (ht.Populate L).isSome := (Populate_isSome_iff ht L).mpr hL
  obtain ⟨ht', hrun⟩ := Option.isSome_iff_exists.mp hsome
  exact ⟨ht', hrun, Populate_num_mono ht ht' L hrun⟩

/-- Witness for C10 on the populated sample table. -/
theorem claim_C10_witness :
    (∀ x ∈ ([2, 0, 2] : List Nat), x < samplePop.capacity) ∧
    (samplePop.Populate [] = some samplePop ∧
      ∃ ht', samplePop.Populate [2, 0, 2] = some ht' ∧
        samplePop.num_items ≤ ht'.num_items) :=
  ⟨by decide, claim_C10 samplePop [2, 0, 2] (by decide)⟩

/-- Claim C3: `MapNodes(output, outputCount)` requires
`outputCount <= num_items`; when the precondition holds it writes
`output[i] = LocalSlot[i].global` for every `i` below `outputCount` and
leaves the table untouched; when `outputCount > num_items` it takes the
fatal contract-violation path and writes nothing. -/
theorem claim_C3 (ht : ParallelHashTable) (n : Nat) :
    (n ≤ ht.num_items → ∃ out, ht.MapNodes n = some (out, ht) ∧ out.length = n ∧
      ∀ i, i < n → out.getD i 0 = (ht.getN i).global) ∧
    (ht.num_items < n → ht.MapNodes n = none) := by
  constructor
  · intro h
    refine ⟨_, MapNodes_le ht n h, by simp, ?_⟩
    intro i hi
    have hlen : i < ((List.range n).map (fun j => (ht.getN j).global)).length := by
      simpa using hi
    rw [List.getD_eq_getElem _ _ hlen]
    simp
  · exact MapNodes_gt ht n

/-- Witness for C3: both branches on the populated sample table. -/
theorem claim_C3_witness :
    (∃ out, samplePop.MapNodes 2 = some (out, samplePop) ∧ out.length = 2 ∧
      ∀ i, i < 2 → out.getD i 0 = (samplePop.getN i).global) ∧
    samplePop.MapNodes 5 = none :=
  ⟨(claim_C3 samplePop 2).1 (by decide), (claim_C3 samplePop 5).2 (by decide)⟩

/-- Claim C5: any input to `Populate` or `MapEdges` containing an id equal
to the capacity (the boundary) or larger triggers the fatal
contract-violation path; the id is never silently truncated or wrapped, and
inputs whose ids are all strictly below the capacity never trigger it. -/
theorem claim_C5 (ht : ParallelHashTable) (input src dst : List Nat) :
    ((∃ x ∈ input, ht.capacity ≤ x) → ht.Populate input = none) ∧
    ((∀ x ∈ input, x < ht.capacity) → (ht.Populate input).isSome) ∧
    ((∃ p ∈ src.zip dst, ht.capacity ≤ p.1 ∨ ht.capacity ≤ p.2) →
      ht.MapEdges src dst = none) ∧
    ((∀ p ∈ src.zip dst, p.1 < ht.capacity ∧ p.2 < ht.capacity) →
      (ht.MapEdges src dst).isSome) := by
  refine ⟨?_, (Populate_isSome_iff ht input).mpr, ?_,
    (MapEdges_isSome_iff ht src dst).mpr⟩
  · rintro ⟨x, hx, hcap⟩
    cases hrun : ht.Populate input with
    | none => rfl
    | some ht' =>
      have hlt := (Populate_isSome_iff ht input).mp (by rw [hrun]; rfl) x hx
      exact absurd hlt (Nat.not_lt_of_ge hcap)
  · rintro ⟨p, hp, hcap⟩
    cases hrun : ht.MapEdges src dst with
    | none => rfl
    | some r =>
      have hb := (MapEdges_isSome_iff ht src dst).mp (by rw [hrun]; rfl) p hp
      rcases hcap with h | h
      · exact absurd hb.1 (Nat.not_lt_of_ge h)
      · exact absurd hb.2 (Nat.not_lt_of_ge h)

/-- Witness for C5: the boundary id 3 equals the sample capacity and is
fatal for both operations; in-range ids complete. -/
theorem claim_C5_witness :
    sampleTable.Populate [1, 3] = none ∧
    (sampleTable.Populate [1, 2]).isSome ∧
    sampleTable.MapEdges [3] [0] = none ∧
    (sampleTable.MapEdges [1] [2]).isSome :=
  ⟨(claim_C5 sampleTable [1, 3] [] []).1 ⟨3, by decide, by decide⟩,
    (claim_C5 sampleTable [1, 2] [] []).2.1 (by decide),
    (claim_C5 sampleTable [] [3] [0]).2.2.1 ⟨(3, 0), by decide, Or.inl (by decide)⟩,
    (claim_C5 sampleTable [] [1] [2]).2.2.2 (by decide)⟩

/-- Claim C6: `Reset` sets `num_items` to 0 and every origin tag to the
empty sentinel while leaving the origin slots' local fields, the whole
local array and the capacity unchanged; afterwards a `Populate` of a
previously present id assigns it a fresh local index (the next counter
value, 0) independent of its pre-Reset index. -/
theorem claim_C6 (ht : ParallelHashTable) (hlen : ht.o2n_table.length = ht.capacity) :
    ht.Reset.num_items = 0 ∧
    (∀ i, i < ht.capacity →
      (ht.Reset.getO i).id = Constant.kEmptyKey ∧
      (ht.Reset.getO i).loc = (ht.getO i).loc) ∧
    ht.Reset.n2o_table = ht.n2o_table ∧
    ht.Reset.capacity = ht.capacity ∧
    (∀ x, x < ht.capacity → ∃ ht₂, ht.Reset.Populate [x] = some ht₂ ∧
      (ht₂.getO x).loc = 0 ∧ ht₂.num_items = 1) := by
  refine ⟨rfl, ?_, rfl, rfl, ?_⟩
  · intro i hi
    rw [Reset_getO ht i hlen hi]
    exact ⟨rfl, rfl⟩
  · intro x hx
    have htag : (ht.Reset.getO x).id = Constant.kEmptyKey := by
      rw [Reset_getO ht x hlen hx]
    have hxlen : x < ht.Reset.o2n_table.length := by
      rw [Reset_o2n_length, hlen]
      exact hx
    refine ⟨{ ht.Reset with
        o2n_table := ht.Reset.o2n_table.set x ⟨x, ht.Reset.num_items⟩,
        n2o_table := ht.Reset.n2o_table.set ht.Reset.num_items ⟨x⟩,
        num_items := ht.Reset.num_items + 1 }, ?_, ?_, rfl⟩
    · rw [Populate_cons, populateStep, if_pos (show x < ht.Reset.capacity from hx),
        if_pos htag]
      rfl
    · have hOx := getD_set_self ht.Reset.o2n_table x ⟨x, ht.Reset.num_items⟩
        ⟨Constant.kEmptyKey, 0⟩ hxlen
      exact congrArg BukcetO2N.loc hOx

/-- Witness for C6 on the populated sample table: id 2 held local index 1
before the Reset and is re-assigned local index 0 after it. -/
theorem claim_C6_witness :
    samplePop.o2n_table.length = samplePop.capacity ∧
    (samplePop.Reset.num_items = 0 ∧
      (∀ i, i < samplePop.capacity →
        (samplePop.Reset.getO i).id = Constant.kEmptyKey ∧
        (samplePop.Reset.getO i).loc = (samplePop.getO i).loc) ∧
      samplePop.Reset.n2o_table = samplePop.n2o_table ∧
      samplePop.Reset.capacity = samplePop.capacity ∧
      (∀ x, x < samplePop.capacity → ∃ ht₂, samplePop.Reset.Populate [x] = some ht₂ ∧
        (ht₂.getO x).loc = 0 ∧ ht₂.num_items = 1)) ∧
    (samplePop.getO 2).loc = 1 :=
  ⟨by decide, claim_C6 samplePop (by decide), by decide⟩

/-- Claim C1: for every sequence of `Populate` calls that together present
a set `S` of distinct global ids (duplicates allowed within and across
calls), all below the capacity, starting from a reset table: afterwards
`num_items = |S|` and the local-index assignment is a bijection between `S`
and `[0, |S|)` with `LocalSlot[OriginSlot[g].local].global = g` for every
`g ∈ S`.  (`capacity ≤ kEmptyKey` states that the empty sentinel lies
outside the id universe, per the spec's data model.) -/
theorem claim_C1 (sz : Nat) (m1 : List BukcetO2N) (m2 : List BucketN2O)
    (batches : List (List Nat))
    (hm1 : m1.length = sz) (hm2 : m2.length = sz) (hsz : sz ≤ Constant.kEmptyKey)
    (hb : ∀ b ∈ batches, ∀ x ∈ b, x < sz) :
    ∃ ht', ((construct sz m1 m2).Reset).runPopulates batches = some ht' ∧
      ht'.num_items = batches.flatten.toFinset.card ∧
      (∀ g ∈ batches.flatten.toFinset,
        (ht'.getO g).loc < ht'.num_items ∧ (ht'.getN (ht'.getO g).loc).global = g) ∧
      (∀ g1 ∈ batches.flatten.toFinset, ∀ g2 ∈ batches.flatten.toFinset,
        (ht'.getO g1).loc = (ht'.getO g2).loc → g1 = g2) ∧
      (∀ j, j < ht'.num_items →
        ∃ g ∈ batches.flatten.toFinset, (ht'.getO g).loc = j) := by
  have hInv₀ : Inv ((construct sz m1 m2).Reset) := Reset_inv _ hm1 hm2 hsz
  have hL : ∀ x ∈ batches.flatten, x < ((construct sz m1 m2).Reset).capacity := by
    intro x hx
    obtain ⟨b, hb1, hb2⟩ := List.mem_flatten.mp hx
    exact hb b hb1 x hb2
  obtain ⟨ht', hrun, hinv', hcap', hcf', -, -, -⟩ :=
    Populate_sound _ batches.flatten hInv₀ hL
  have hcf0 : ((construct sz m1 m2).Reset).claimedFinset = ∅ :=
    Reset_claimedFinset _ hm1
  have hS : ht'.claimedFinset = batches.flatten.toFinset := by
    rw [hcf', hcf0, Finset.empty_union]
  have hnum : ht'.num_items = batches.flatten.toFinset.card := by
    rw [← card_claimed ht' hinv', hS]
  have hkey : ∀ g ∈ batches.flatten.toFinset,
      (ht'.getO g).id = g ∧ (ht'.getO g).loc < ht'.num_items ∧
      (ht'.getN (ht'.getO g).loc).global = g := by
    intro g hg
    have hgmem : g ∈ ht'.claimedFinset := hS ▸ hg
    rw [claimedFinset, Finset.mem_filter, Finset.mem_range] at hgmem
    rcases hinv'.o2n_sound g hgmem.1 with h | h
    · exact absurd h hgmem.2
    · exact h
  refine ⟨ht', by rwa [runPopulates_eq], hnum, ?_, ?_, ?_⟩
  · intro g hg
    exact ⟨(hkey g hg).2.1, (hkey g hg).2.2⟩
  · intro g1 hg1 g2 hg2 heq
    have e1 := (hkey g1 hg1).2.2
    have e2 := (hkey g2 hg2).2.2
    rw [heq] at e1
    exact e1.symm.trans e2
  · intro j hj
    obtain ⟨hg, htg, hlc⟩ := hinv'.n2o_sound j hj
    refine ⟨(ht'.getN j).global, ?_, hlc⟩
    rw [← hS, claimedFinset, Finset.mem_filter, Finset.mem_range]
    exact ⟨hg, claimed_of_tag_eq ht' _ hg hinv'.cap_le htg⟩

/-- Witness for C1: two batches presenting `S = {0, 1, 2}` with duplicates
within and across the batches. -/
theorem claim_C1_witness :
    ([⟨5, 1⟩, ⟨0, 2⟩, ⟨7, 9⟩] : List BukcetO2N).length = 3 ∧
    ([⟨6⟩, ⟨6⟩, ⟨6⟩] : List BucketN2O).length = 3 ∧
    3 ≤ Constant.kEmptyKey ∧
    (∀ b ∈ ([[1, 2, 1], [2, 0]] : List (List Nat)), ∀ x ∈ b, x < 3) ∧
    (∃ ht', sampleTable.runPopulates [[1, 2, 1], [2, 0]] = some ht' ∧
      ht'.num_items = ([[1, 2, 1], [2, 0]] : List (List Nat)).flatten.toFinset.card ∧
      (∀ g ∈ ([[1, 2, 1], [2, 0]] : List (List Nat)).flatten.toFinset,
        (ht'.getO g).loc < ht'.num_items ∧ (ht'.getN (ht'.getO g).loc).global = g) ∧
      (∀ g1 ∈ ([[1, 2, 1], [2, 0]] : List (List Nat)).flatten.toFinset,
        ∀ g2 ∈ ([[1, 2, 1], [2, 0]] : List (List Nat)).flatten.toFinset,
        (ht'.getO g1).loc = (ht'.getO g2).loc → g1 = g2) ∧
      (∀ j, j < ht'.num_items →
        ∃ g ∈ ([[1, 2, 1], [2, 0]] : List (List Nat)).flatten.toFinset,
          (ht'.getO g).loc = j)) :=
  ⟨rfl, rfl, by decide, by decide,
    claim_C1 3 [⟨5, 1⟩, ⟨0, 2⟩, ⟨7, 9⟩] [⟨6⟩, ⟨6⟩, ⟨6⟩] [[1, 2, 1], [2, 0]]
      rfl rfl (by decide) (by decide)⟩

/-- Claim C2: populating an already-assigned global id again (in the same
or a later `Populate` call) never changes its origin slot, hence never its
local index; and `num_items` grows by exactly the number of distinct fresh
ids of the batch, so it is incremented at most once per distinct id. -/
theorem claim_C2 (ht : ParallelHashTable) (L : List Nat) (hInv : Inv ht)
    (hL : ∀ x ∈ L, x < ht.capacity) :
    ∃ ht', ht.Populate L = some ht' ∧
      (∀ x, ht.claimed x → ht'.getO x = ht.getO x) ∧
      ht'.num_items = ht.num_items + (L.toFinset \ ht.claimedFinset).card := by
  obtain ⟨ht', hrun, hinv', hcap', hcf', hO', -, -⟩ := Populate_sound ht L hInv hL
  refine ⟨ht', hrun, hO', ?_⟩
  rw [← card_claimed ht' hinv', hcf', ← card_claimed ht hInv]
  rw [Finset.union_comm, ← Finset.card_sdiff_add_card, Nat.add_comm]

/-- Witness for C2: re-populating the present id 2 (twice) together with
the fresh id 0 moves `num_items` from 2 to 3 and leaves slot 2 untouched. -/
theorem claim_C2_witness :
    (∀ x ∈ ([2, 0, 2] : List Nat), x < samplePop.capacity) ∧
    (∃ ht', samplePop.Populate [2, 0, 2] = some ht' ∧
      (∀ x, samplePop.claimed x → ht'.getO x = samplePop.getO x) ∧
      ht'.num_items = samplePop.num_items +
        (([2, 0, 2] : List Nat).toFinset \ samplePop.claimedFinset).card) :=
  ⟨by decide,
    claim_C2 samplePop [2, 0, 2]
      ⟨by decide, by decide, by decide, by decide, by decide⟩ (by decide)⟩

/-- Claim C4: for every edge list over ids all presented in a prior
`Populate` (hence all below the capacity), `MapEdges` completes and writes
`outSrc[i] = OriginSlot[src[i]].local` and
`outDst[i] = OriginSlot[dst[i]].local` for every position `i`. -/
theorem claim_C4 (sz : Nat) (m1 : List BukcetO2N) (m2 : List BucketN2O)
    (L src dst : List Nat) (ht₁ : ParallelHashTable)
    (hm1 : m1.length = sz) (hm2 : m2.length = sz) (hsz : sz ≤ Constant.kEmptyKey)
    (hpop : ((construct sz m1 m2).Reset).Populate L = some ht₁)
    (hsrc : ∀ x ∈ src, x ∈ L) (hdst : ∀ x ∈ dst, x ∈ L)
    (hlen : src.length = dst.length) :
    ∃ os od, ht₁.MapEdges src dst = some (os, od, ht₁) ∧
      os.length = src.length ∧ od.length = dst.length ∧
      (∀ i, i < src.length → os.getD i 0 = (ht₁.getO (src.getD i 0)).loc) ∧
      (∀ i, i < dst.length → od.getD i 0 = (ht₁.getO (dst.getD i 0)).loc) := by
  have hLbound : ∀ x ∈ L, x < sz := by
    have hsome : (((construct sz m1 m2).Reset).Populate L).isSome := by
      rw [hpop]
      rfl
    exact (Populate_isSome_iff _ L).mp hsome
  have hcap₁ : ht₁.capacity = sz := Populate_capacity _ ht₁ L hpop
  have hzip : ∀ p ∈ src.zip dst, p.1 < ht₁.capacity ∧ p.2 < ht₁.capacity := by
    rintro ⟨a, b⟩ hp
    obtain ⟨ha, hb⟩ := List.of_mem_zip hp
    rw [hcap₁]
    exact ⟨hLbound a (hsrc a ha), hLbound b (hdst b hb)⟩
  refine ⟨_, _, MapEdges_eq ht₁ src dst hzip, ?_, ?_, ?_, ?_⟩
  · simp [hlen]
  · simp [hlen]
  · intro i hi
    have hizip : i < (src.zip dst).length := by
      simp only [List.length_zip]
      omega
    have hilen : i < ((src.zip dst).map
        (fun p => (ht₁.getO p.1).loc)).length := by
      simpa using hizip
    rw [List.getD_eq_getElem _ _ hilen, List.getElem_map, List.getElem_zip,
      List.getD_eq_getElem src 0 hi]
  · intro i hi
    have hizip : i < (src.zip dst).length := by
      simp only [List.length_zip]
      omega
    have hilen : i < ((src.zip dst).map
        (fun p => (ht₁.getO p.2).loc)).length := by
      simpa using hizip
    rw [List.getD_eq_getElem _ _ hilen, List.getElem_map, List.getElem_zip,
      List.getD_eq_getElem dst 0 hi]

/-- Witness for C4 on the sample table populated with `[1, 2]`. -/
theorem claim_C4_witness :
    ([⟨5, 1⟩, ⟨0, 2⟩, ⟨7, 9⟩] : List BukcetO2N).length = 3 ∧
    ([⟨6⟩, ⟨6⟩, ⟨6⟩] : List BucketN2O).length = 3 ∧
    3 ≤ Constant.kEmptyKey ∧
    sampleTable.Populate [1, 2] = some samplePop ∧
    (∀ x ∈ ([1, 2] : List Nat), x ∈ ([1, 2] : List Nat)) ∧
    (∀ x ∈ ([2, 2] : List Nat), x ∈ ([1, 2] : List Nat)) ∧
    ([1, 2] : List Nat).length = ([2, 2] : List Nat).length ∧
    (∃ os od, samplePop.MapEdges [1, 2] [2, 2] = some (os, od, samplePop) ∧
      os.length = ([1, 2] : List Nat).length ∧
      od.length = ([2, 2] : List Nat).length ∧
      (∀ i, i < ([1, 2] : List Nat).length →
        os.getD i 0 = (samplePop.getO (([1, 2] : List Nat).getD i 0)).loc) ∧
      (∀ i, i < ([2, 2] : List Nat).length →
        od.getD i 0 = (samplePop.getO (([2, 2] : List Nat).getD i 0)).loc)) :=
  ⟨rfl, rfl, by decide, by decide, by decide, by decide, rfl,
    claim_C4 3 [⟨5, 1⟩, ⟨0, 2⟩, ⟨7, 9⟩] [⟨6⟩, ⟨6⟩, ⟨6⟩] [1, 2] [1, 2] [2, 2]
      samplePop rfl rfl (by decide) (by decide) (by decide) (by decide) rfl⟩

/-- Claim C7: starting from a reset table, after every completed sequence
of operations of the public interface (`Populate`, `MapNodes`, `MapEdges`,
`Reset`), `num_items` equals the number of origin slots whose tag is not
the empty sentinel. -/
theorem claim_C7 (sz : Nat) (m1 : List BukcetO2N) (m2 : List BucketN2O)
    (ops : List TableOp) (ht' : ParallelHashTable)
    (hm1 : m1.length = sz) (hm2 : m2.length = sz) (hsz : sz ≤ Constant.kEmptyKey)
    (hrun : ((construct sz m1 m2).Reset).runOps ops = some ht') :
    ht'.num_items = ht'.claimedFinset.card := by
  have hInv₀ : Inv ((construct sz m1 m2).Reset) := Reset_inv _ hm1 hm2 hsz
  exact (card_claimed ht' (runOps_inv _ ht' ops hInv₀ hrun)).symm

/-- Witness for C7: a run exercising all four operations. -/
theorem claim_C7_witness :
    ([⟨5, 1⟩, ⟨0, 2⟩, ⟨7, 9⟩] : List BukcetO2N).length = 3 ∧
    ([⟨6⟩, ⟨6⟩, ⟨6⟩] : List BucketN2O).length = 3 ∧
    3 ≤ Constant.kEmptyKey ∧
    sampleTable.runOps
        [.populate [1, 2], .mapNodes 2, .mapEdges [1] [2], .reset, .populate [0]] =
      some ((sampleTable.runOps
        [.populate [1, 2], .mapNodes 2, .mapEdges [1] [2], .reset,
          .populate [0]]).getD sampleTable) ∧
    ((sampleTable.runOps
        [.populate [1, 2], .mapNodes 2, .mapEdges [1] [2], .reset,
          .populate [0]]).getD sampleTable).num_items =
      ((sampleTable.runOps
        [.populate [1, 2], .mapNodes 2, .mapEdges [1] [2], .reset,
          .populate [0]]).getD sampleTable).claimedFinset.card :=
  ⟨rfl, rfl, by decide, by decide,
    claim_C7 3 [⟨5, 1⟩, ⟨0, 2⟩, ⟨7, 9⟩] [⟨6⟩, ⟨6⟩, ⟨6⟩]
      [.populate [1, 2], .mapNodes 2, .mapEdges [1] [2], .reset, .populate [0]]
      _ rfl rfl (by decide) (by decide)⟩

end ParallelHashTable

end Samgraph
